import Mathlib

/-!
Verification of the event-sourced financial ledger core (Go sources under
`domain/`, `events/`, `store/`, `app/`, `shared/`).

Shallow embedding conventions:
* `decimal.Decimal` (shopspring) is modelled as `ℚ`.  Every decimal operation
  the embedded code uses — `Add`, `Sub`, `Mul`, `IsNegative`, `IsPositive`,
  `Equal`, `GreaterThanOrEqual` — is exact in the library (mantissa/exponent
  arithmetic, no rounding), so the mapping into `ℚ` is operation-faithful.
* `map[shared.Currency]decimal.Decimal` is modelled as `Currency → Option ℚ`:
  `none` is an absent key, `some v` a present entry.  `shared.Currency` is the
  closed enumeration `{USD, EUR, GBP}` from `shared/types.go`.
* A Go method with pointer receiver returning `error` is modelled as a pure
  function `State → … → State × Option Err`; on the `some`-error outcome the
  returned state is whatever the receiver holds at the `return err` statement.
  In `account.go` every error return precedes the first field assignment, so
  error branches return the receiver unchanged (checked statement by
  statement against the source).
* The event envelope `events.BaseEvent` keeps the fields the code branches
  on: `AggregateID` and `Version`.  `EventID` (random UUID), `Timestamp`
  (wall clock) and the redundant `Type` tag are only logged, never read by
  any embedded code path, and are omitted.
* Go `int` is modelled as `Int`.  Versions and lengths only ever grow by 1
  from 0 and stay far below 2^63 on every reachable state, so their
  arithmetic is embedded unwrapped; the one caller-controlled addition that
  can overflow — `end := start + query.Limit` in GetTransactionHistory — is
  embedded with an explicit two's-complement wrap (`wrap64`), and the
  slice-bounds panic it can cause is an `Option.none` outcome.
-/

namespace Ledger

/-- Exact decimal amounts (shopspring decimal), embedded as rationals. -/
abbrev Dec := ℚ

/-- shared.Currency: closed currency enumeration from shared/types.go. -/
inductive Currency
  | USD
  | EUR
  | GBP
deriving DecidableEq

/-- Balances map of an account: `none` models an absent key of the Go map. -/
abbrev Balances := Currency → Option Dec

/-- Fresh empty balances map (`make(map[shared.Currency]decimal.Decimal)`). -/
def emptyBalances : Balances := fun _ => none

/-- Account.getBalance: map read defaulting to decimal.Zero on a missing key. -/
def getBalance (b : Balances) (c : Currency) : Dec :=
  (b c).getD 0

/-- Go map assignment `b[c] = v`. -/
def setBalance (b : Balances) (c : Currency) (v : Dec) : Balances :=
  fun x => if x = c then some v else b x

/-- events.BaseEvent, restricted to the fields the embedded code reads. -/
structure BaseEvent where
  aggregateId : String
  version : Int
deriving DecidableEq

/-- events.Event: the closed family of domain events from events/events.go.
`moneyTransferred` carries `transferId` and `sourceAccountId` as the struct
in events/events.go declares; `domain/account.go` never reads them and its
`HandleTransferMoney` leaves them at the Go zero value `""`. -/
inductive Event
  | accountCreated (base : BaseEvent) (initialBalances : List (Currency × Dec))
  | depositMade (base : BaseEvent) (amount : Dec) (currency : Currency)
  | withdrawalMade (base : BaseEvent) (amount : Dec) (currency : Currency)
  | currencyConverted (base : BaseEvent) (fromAmount : Dec) (fromCurrency : Currency)
      (toAmount : Dec) (toCurrency : Currency) (exchangeRate : Dec)
  | moneyTransferred (base : BaseEvent) (transferId sourceAccountId targetAccountId : String)
      (debitedAmount : Dec) (debitedCurrency : Currency)
      (creditedAmount : Dec) (creditedCurrency : Currency) (exchangeRate : Dec)

/-- Event.GetBase from events/events.go. -/
def Event.getBase : Event → BaseEvent
  | .accountCreated base _ => base
  | .depositMade base _ _ => base
  | .withdrawalMade base _ _ => base
  | .currencyConverted base _ _ _ _ _ => base
  | .moneyTransferred base _ _ _ _ _ _ _ _ => base

/-- Error outcomes of the domain layer (domain/errors.go plus the dynamic
errors built with fmt.Errorf in domain/account.go).  `internalApply` is the
wrapping `handleChange` adds around an `ApplyEvent` failure. -/
inductive AccErr
  | accountExists
  | accountNotFound
  | domainError
  | insufficientFunds
  | versionMismatch
  | invariantViolation
  | internalApply (e : AccErr)
deriving DecidableEq

/-- domain.Account: the aggregate root (domain/account.go).  `changes` is the
unexported pending-events buffer. -/
structure Account where
  id : String
  balances : Balances
  version : Int
  changes : List Event

/-- domain.NewAccount. -/
def NewAccount (id : String) : Account :=
  { id := id, balances := emptyBalances, version := 0, changes := [] }

/-- Account.GetUncommitedChanges: returns the buffered events and resets the
buffer (the pair is the Go return value together with the mutated receiver). -/
def GetUncommitedChanges (a : Account) : List Event × Account :=
  (a.changes, { a with changes := [] })

/-- Install the initial balances of an AccountCreated event: the loop
`for _, balance := range e.InitialBalances { a.Balances[...] = ... }` run on a
fresh map. -/
def installBalances (l : List (Currency × Dec)) : Balances :=
  l.foldl (fun bs p => setBalance bs p.1 p.2) emptyBalances

/-- Account.ApplyEvent from domain/account.go: version gate, then a mutation
per variant.  The Go `default: unknown event` branch is unreachable for the
closed event family and has no counterpart.  Error branches return the
receiver unchanged because in the source every `return err` precedes the
first field assignment. -/
def ApplyEvent (a : Account) (event : Event) : Account × Option AccErr :=
  let base := event.getBase
  if base.version ≠ a.version + 1 then
    (a, some .versionMismatch)
  else
    match event with
    | .accountCreated _ initialBalances =>
        ({ a with id := base.aggregateId,
                  balances := installBalances initialBalances,
                  version := base.version }, none)
    | .depositMade _ amount currency =>
        ({ a with balances := setBalance a.balances currency
                    (getBalance a.balances currency + amount),
                  version := base.version }, none)
    | .withdrawalMade _ amount currency =>
        let newBalance := getBalance a.balances currency - amount
        if newBalance < 0 then
          (a, some .invariantViolation)
        else
          ({ a with balances := setBalance a.balances currency newBalance,
                    version := base.version }, none)
    | .currencyConverted _ fromAmount fromCurrency toAmount toCurrency _ =>
        let newFrom := getBalance a.balances fromCurrency - fromAmount
        if newFrom < 0 then
          (a, some .invariantViolation)
        else
          let b1 := setBalance a.balances fromCurrency newFrom
          ({ a with balances := setBalance b1 toCurrency
                      (getBalance b1 toCurrency + toAmount),
                    version := base.version }, none)
    | .moneyTransferred _ _ _ _ debitedAmount debitedCurrency _ _ _ =>
        let newBalance := getBalance a.balances debitedCurrency - debitedAmount
        if newBalance < 0 then
          (a, some .invariantViolation)
        else
          ({ a with balances := setBalance a.balances debitedCurrency newBalance,
                    version := base.version }, none)

/-- Account.handleChange: apply the event to self; on success append it to the
pending buffer, on failure wrap and surface the error. -/
def handleChange (a : Account) (event : Event) : Account × Option AccErr :=
  match ApplyEvent a event with
  | (a2, some e) => (a2, some (.internalApply e))
  | (a2, none) => ({ a2 with changes := a2.changes ++ [event] }, none)

/-- Account.HandleCreateAccount.  The Go input is a map iterated in arbitrary
order; it is embedded as the list of its entries (currencies necessarily
distinct, but no theorem below needs that). -/
def HandleCreateAccount (a : Account) (id : String)
    (initialBalances : List (Currency × Dec)) : Account × Option AccErr :=
  if a.version > 0 then
    (a, some .accountExists)
  else if id = "" then
    (a, some .domainError)
  else if initialBalances.any (fun p => decide (p.2 < 0)) then
    (a, some .domainError)
  else
    handleChange a (.accountCreated ⟨id, a.version + 1⟩ initialBalances)

/-- Account.HandleDeposit. -/
def HandleDeposit (a : Account) (amount : Dec) (currency : Currency) :
    Account × Option AccErr :=
  if a.id = "" ∨ a.version = 0 then
    (a, some .domainError)
  else if ¬ 0 < amount then
    (a, some .domainError)
  else
    handleChange a (.depositMade ⟨a.id, a.version + 1⟩ amount currency)

/-- Account.HandleWithdraw.  The Money comparison is between two values of
the same currency, so its currency-mismatch error path is dead code. -/
def HandleWithdraw (a : Account) (amount : Dec) (currency : Currency) :
    Account × Option AccErr :=
  if a.id = "" ∨ a.version = 0 then
    (a, some .domainError)
  else if ¬ 0 < amount then
    (a, some .domainError)
  else if ¬ getBalance a.balances currency ≥ amount then
    (a, some .insufficientFunds)
  else
    handleChange a (.withdrawalMade ⟨a.id, a.version + 1⟩ amount currency)

/-- Account.HandleConvertCurrency.  `toAmount := fromAmount.Mul(exchangeRate)`
is exact decimal multiplication. -/
def HandleConvertCurrency (a : Account) (fromAmount : Dec)
    (fromCurrency toCurrency : Currency) (exchangeRate : Dec) :
    Account × Option AccErr :=
  if a.id = "" ∨ a.version = 0 then
    (a, some .domainError)
  else if ¬ 0 < fromAmount then
    (a, some .domainError)
  else if fromCurrency = toCurrency then
    (a, some .domainError)
  else if ¬ 0 < exchangeRate then
    (a, some .domainError)
  else if ¬ getBalance a.balances fromCurrency ≥ fromAmount then
    (a, some .insufficientFunds)
  else
    handleChange a (.currencyConverted ⟨a.id, a.version + 1⟩ fromAmount fromCurrency
      (fromAmount * exchangeRate) toCurrency exchangeRate)

/-- Account.HandleTransferMoney from domain/account.go.  On a cross-currency
transfer a credit amount that differs from `debitAmount * rate` is only
warned about; on a same-currency transfer a rate other than 1 is overwritten
with 1.  The emitted event's `transferId` and `sourceAccountId` stay at the
Go zero value `""` because this handler never sets them. -/
def HandleTransferMoney (a : Account) (targetAccountID : String)
    (debitAmount : Dec) (debitCurrency : Currency)
    (creditAmount : Dec) (creditCurrency : Currency) (rate : Dec) :
    Account × Option AccErr :=
  if a.id = "" ∨ a.version = 0 then
    (a, some .domainError)
  else if ¬ 0 < debitAmount then
    (a, some .domainError)
  else if targetAccountID = "" then
    (a, some .domainError)
  else if targetAccountID = a.id then
    (a, some .domainError)
  else if ¬ getBalance a.balances debitCurrency ≥ debitAmount then
    (a, some .insufficientFunds)
  else if debitCurrency ≠ creditCurrency then
    if ¬ 0 < rate then
      (a, some .domainError)
    else
      handleChange a (.moneyTransferred ⟨a.id, a.version + 1⟩ "" "" targetAccountID
        debitAmount debitCurrency creditAmount creditCurrency rate)
  else if ¬ creditAmount = debitAmount then
    (a, some .domainError)
  else
    handleChange a (.moneyTransferred ⟨a.id, a.version + 1⟩ "" "" targetAccountID
      debitAmount debitCurrency creditAmount creditCurrency
      (if rate = 1 then rate else 1))

/-- Account.ApplyEvents: fold over the history, aborting on the first
failure. -/
def ApplyEvents (a : Account) : List Event → Account × Option AccErr
  | [] => (a, none)
  | e :: rest =>
      match ApplyEvent a e with
      | (a2, none) => ApplyEvents a2 rest
      | (a2, some err) => (a2, some err)

/-- Commands of the account aggregate, one per public command handler. -/
inductive Cmd
  | create (id : String) (initialBalances : List (Currency × Dec))
  | deposit (amount : Dec) (currency : Currency)
  | withdraw (amount : Dec) (currency : Currency)
  | convert (fromAmount : Dec) (fromCurrency toCurrency : Currency) (exchangeRate : Dec)
  | transfer (targetAccountID : String) (debitAmount : Dec) (debitCurrency : Currency)
      (creditAmount : Dec) (creditCurrency : Currency) (rate : Dec)

/-- Dispatch one command to its handler. -/
def execCmd (a : Account) : Cmd → Account × Option AccErr
  | .create id initialBalances => HandleCreateAccount a id initialBalances
  | .deposit amount currency => HandleDeposit a amount currency
  | .withdraw amount currency => HandleWithdraw a amount currency
  | .convert fromAmount fromCurrency toCurrency exchangeRate =>
      HandleConvertCurrency a fromAmount fromCurrency toCurrency exchangeRate
  | .transfer targetAccountID debitAmount debitCurrency creditAmount creditCurrency rate =>
      HandleTransferMoney a targetAccountID debitAmount debitCurrency
        creditAmount creditCurrency rate

/-- Run a command sequence, stopping at the first command that errors. -/
def execCmds (a : Account) : List Cmd → Account × Option AccErr
  | [] => (a, none)
  | c :: cs =>
      match execCmd a c with
      | (a2, none) => execCmds a2 cs
      | (a2, some e) => (a2, some e)

/-- Error outcomes of store.InMemoryEventStore.SaveEvents
(store/eventstore.go): ErrOptimisticLock, the event-sequence error and the
aggregate-id mismatch error. -/
inductive StoreErr
  | optimisticLock
  | sequenceError
  | idMismatch
deriving DecidableEq

/-- store.InMemoryEventStore: per-aggregate event streams.  `none` models an
aggregate id absent from the Go map. -/
structure EventStore where
  streams : String → Option (List Event)

/-- store.NewInMemoryEventStore. -/
def NewInMemoryEventStore : EventStore :=
  { streams := fun _ => none }

/-- Current stored version of an aggregate: the version of the last stored
event, or 0 when the stream is missing or empty (lines 45-49 of
store/eventstore.go). -/
def currentVersion (s : EventStore) (aggregateID : String) : Int :=
  match ((s.streams aggregateID).getD []).getLast? with
  | some e => e.getBase.version
  | none => 0

/-- Validation loop of SaveEvents: walk the batch with a running
`nextVersion`, rejecting the first event whose version is not the increment
or whose aggregate id differs. -/
def checkBatch (aggregateID : String) : Int → List Event → Option StoreErr
  | _, [] => none
  | nextVersion, e :: rest =>
      if e.getBase.version ≠ nextVersion + 1 then some .sequenceError
      else if e.getBase.aggregateId ≠ aggregateID then some .idMismatch
      else checkBatch aggregateID (nextVersion + 1) rest

/-- store.InMemoryEventStore.SaveEvents.  The mutex makes the whole body
atomic; the embedding is the body as one step.  An empty batch returns nil
before any version check.  Validation failures return before the append, so
the stream map is unchanged on every error path. -/
def SaveEvents (s : EventStore) (aggregateID : String) (expectedVersion : Int)
    (newEvents : List Event) : EventStore × Option StoreErr :=
  if newEvents.length = 0 then
    (s, none)
  else if currentVersion s aggregateID ≠ expectedVersion then
    (s, some .optimisticLock)
  else
    match checkBatch aggregateID expectedVersion newEvents with
    | some err => (s, some err)
    | none =>
        ({ streams := fun x =>
            if x = aggregateID then
              some ((s.streams aggregateID).getD [] ++ newEvents)
            else s.streams x }, none)

/-- store.InMemoryEventStore.GetEvents (the returned copy is the value). -/
def GetEvents (s : EventStore) (aggregateID : String) : List Event :=
  (s.streams aggregateID).getD []

/-- domain.Snapshot.State decoded: json.Marshal of an Account serializes the
exported fields `id`, `balances`, `version` (the unexported `changes` buffer
is skipped); decimals are encoded as exact strings, so the codec is the
identity on this triple.  The envelope timestamp is never read and omitted. -/
structure AccountState where
  id : String
  balances : Balances
  version : Int

/-- domain.Snapshot (domain/snapshot.go). -/
structure Snapshot where
  aggregateId : String
  version : Int
  state : AccountState

/-- domain.CreateSnapshot. -/
def CreateSnapshot (a : Account) : Snapshot :=
  { aggregateId := a.id, version := a.version,
    state := { id := a.id, balances := a.balances, version := a.version } }

/-- domain.ApplySnapshot: decode the state blob, overwrite id and version
with the envelope metadata on mismatch, reset the pending buffer.  The
nil-balances repair branch has no counterpart because a map is embedded as
its key-value content, under which a nil and an empty map coincide. -/
def ApplySnapshot (snap : Snapshot) : Account :=
  let account : Account :=
    { id := snap.state.id, balances := snap.state.balances,
      version := snap.state.version, changes := [] }
  if account.id ≠ snap.aggregateId ∨ account.version ≠ snap.version then
    { account with id := snap.aggregateId, version := snap.version }
  else
    account

/-- Two's-complement wrap into a signed 64-bit value: the result of a Go
`int` addition whose mathematical value may overflow. -/
def wrap64 (x : Int) : Int :=
  (x + 2 ^ 63) % 2 ^ 64 - 2 ^ 63

/-- AccountService.GetTransactionHistory (app/service.go), on the branch
where the fetched stream is non-empty: the skip/limit slicing of the full
ordered stream.  `query.Skip` and `query.Limit` are caller-supplied Go
`int`s (int64 values); the only arithmetic that can leave the int64 range is
`end := start + query.Limit` (service.go line 308), which wraps and is
modelled with `wrap64`.  `history[start:end]` requires
`0 ≤ start ≤ end ≤ len(history)` and panics otherwise; the panic outcome is
`none`. -/
def GetTransactionHistory (history : List Event) (skip limit : Int) :
    Option (List Event) :=
  let totalEvents : Int := history.length
  let start := if skip < 0 then 0 else skip
  if start ≥ totalEvents then
    some []
  else
    let e0 := wrap64 (start + limit)
    let stop :=
      if limit ≤ 0 ∨ e0 > totalEvents then totalEvents
      else e0
    if 0 ≤ start ∧ start ≤ stop ∧ stop ≤ totalEvents then
      some ((history.take stop.toNat).drop start.toNat)
    else
      none

/-! Helper lemmas shared by the claim theorems. -/

/-- Every value present in a balances map is nonnegative. -/
def NonnegBalances (b : Balances) : Prop :=
  ∀ c v, b c = some v → 0 ≤ v

theorem getBalance_nonneg {b : Balances} (hb : NonnegBalances b) (c : Currency) :
    0 ≤ getBalance b c := by
  unfold getBalance
  cases h : b c with
  | none => simp
  | some v => simpa using hb c v h

theorem nonnegBalances_setBalance {b : Balances} {v : Dec}
    (hb : NonnegBalances b) (c : Currency) (hv : 0 ≤ v) :
    NonnegBalances (setBalance b c v) := by
  intro c2 v2 h
  unfold setBalance at h
  split at h
  · cases h; exact hv
  · exact hb c2 v2 h

theorem nonnegBalances_foldl (l : List (Currency × Dec)) :
    ∀ b : Balances, NonnegBalances b → (∀ p ∈ l, (0:Dec) ≤ p.2) →
    NonnegBalances (l.foldl (fun bs p => setBalance bs p.1 p.2) b) := by
  induction l with
  | nil => intro b hb _; simpa using hb
  | cons p rest ih =>
      intro b hb hl
      simp only [List.foldl_cons]
      exact ih _ (nonnegBalances_setBalance hb p.1 (hl p (by simp)))
        (fun q hq => hl q (by simp [hq]))

theorem nonnegBalances_installBalances {l : List (Currency × Dec)}
    (hl : ∀ p ∈ l, (0:Dec) ≤ p.2) : NonnegBalances (installBalances l) := by
  unfold installBalances
  exact nonnegBalances_foldl l emptyBalances (by intro c v h; simp [emptyBalances] at h) hl

@[simp] theorem usd_ne_eur : Currency.USD ≠ Currency.EUR := by decide

@[simp] theorem usd_ne_gbp : Currency.USD ≠ Currency.GBP := by decide

@[simp] theorem eur_ne_usd : Currency.EUR ≠ Currency.USD := by decide

@[simp] theorem eur_ne_gbp : Currency.EUR ≠ Currency.GBP := by decide

@[simp] theorem gbp_ne_usd : Currency.GBP ≠ Currency.USD := by decide

@[simp] theorem gbp_ne_eur : Currency.GBP ≠ Currency.EUR := by decide

theorem getBalance_setBalance_same (b : Balances) (c : Currency) (v : Dec) :
    getBalance (setBalance b c v) c = v := by
  simp [getBalance, setBalance]

theorem getBalance_setBalance_ne (b : Balances) {c c2 : Currency} (v : Dec)
    (h : c2 ≠ c) : getBalance (setBalance b c v) c2 = getBalance b c2 := by
  simp [getBalance, setBalance, h]

/-- ApplyEvent leaves the receiver untouched whenever it reports an error
(in the source every `return err` precedes the first field assignment). -/
theorem applyEvent_err_eq (a : Account) (ev : Event) :
    (ApplyEvent a ev).2 ≠ none → (ApplyEvent a ev).1 = a := by
  cases ev <;>
    simp only [ApplyEvent, Event.getBase] <;>
    split <;> (try split) <;> simp

/-- handleChange leaves the receiver untouched whenever it reports an
error. -/
theorem handleChange_err_eq (a : Account) (ev : Event) :
    (handleChange a ev).2 ≠ none → (handleChange a ev).1 = a := by
  unfold handleChange
  rcases hA : ApplyEvent a ev with ⟨a2, oe⟩
  cases oe with
  | none => simp
  | some e =>
      intro _
      have h2 := applyEvent_err_eq a ev (by rw [hA]; simp)
      rw [hA] at h2
      simpa using h2

/-- Every command handler leaves the receiver untouched whenever it reports
an error. -/
theorem execCmd_err_eq (a : Account) (c : Cmd) :
    (execCmd a c).2 ≠ none → (execCmd a c).1 = a := by
  cases c <;>
    simp only [execCmd, HandleCreateAccount, HandleDeposit, HandleWithdraw,
      HandleConvertCurrency, HandleTransferMoney] <;>
    (repeat' split) <;>
    first
      | exact handleChange_err_eq _ _
      | simp

/-- Concrete active account used to exercise ApplyEvent on a foreign-id
event. -/
def c4account : Account :=
  { id := "acc-1", balances := setBalance emptyBalances .USD 100,
    version := 1, changes := [] }

/-- DepositMade event carrying the right next version but a different
aggregate id than `c4account`. -/
def c4foreignEvent : Event := .depositMade ⟨"acc-2", 2⟩ 5 .USD

/-- C4, counterexample: ApplyEvent never inspects the event's aggregateId
(domain/account.go only compares versions at line 217): a DepositMade event
whose aggregateId differs from the aggregate's id but whose version is
version+1 is applied successfully, and the aggregate's id afterwards differs
from that event's aggregateId — refuting both the id-consistency
precondition and the every-event-id consequence of the claim. -/
theorem applyEvent_accepts_foreign_aggregateId :
    (ApplyEvent c4account c4foreignEvent).2 = none ∧
    c4foreignEvent.getBase.aggregateId ≠ c4account.id ∧
    (ApplyEvent c4account c4foreignEvent).1.id ≠ c4foreignEvent.getBase.aggregateId := by
  refine ⟨?_, by decide, ?_⟩ <;>
    (norm_num [ApplyEvent, Event.getBase, c4account, c4foreignEvent]; try decide)

/-- C4, amended: ApplyEvent gates only on the version.  If the event's
version is not the aggregate's version + 1 it fails with the version
mismatch error and no mutation; whenever it reports any error the aggregate
is unchanged; and on success the aggregate's version becomes the event's
version.  The aggregateId of a non-creation event is not validated. -/
theorem applyEvent_version_gate_amended (a : Account) (ev : Event) :
    (ev.getBase.version ≠ a.version + 1 →
      ApplyEvent a ev = (a, some .versionMismatch)) ∧
    ((ApplyEvent a ev).2 ≠ none → (ApplyEvent a ev).1 = a) ∧
    ((ApplyEvent a ev).2 = none → (ApplyEvent a ev).1.version = ev.getBase.version) := by
  refine ⟨?_, applyEvent_err_eq a ev, ?_⟩
  · intro h
    simp only [ApplyEvent]
    rw [if_pos h]
  · cases ev <;>
      simp only [ApplyEvent, Event.getBase] <;>
      split <;> (try split) <;> simp_all

/-- C4 witness: the amended theorem applied at a concrete version-skipping
event (version 3 arriving on a version-1 aggregate). -/
theorem applyEvent_version_gate_amended_witness :
    ApplyEvent c4account (.depositMade ⟨"acc-1", 3⟩ 10 .USD) =
      (c4account, some .versionMismatch) :=
  (applyEvent_version_gate_amended c4account (.depositMade ⟨"acc-1", 3⟩ 10 .USD)).1
    (by decide)

/-- C5: whenever a command handler (create, deposit, withdraw, convert,
transfer) returns an error, the aggregate's id, balances and version are
exactly as before the call and the pending-changes buffer drains to the
same events as before. -/
theorem failed_command_leaves_account_unchanged (a : Account) (c : Cmd)
    (e : AccErr) (h : (execCmd a c).2 = some e) :
    (execCmd a c).1.id = a.id ∧
    (execCmd a c).1.balances = a.balances ∧
    (execCmd a c).1.version = a.version ∧
    (GetUncommitedChanges (execCmd a c).1).1 = (GetUncommitedChanges a).1 := by
  have hu : (execCmd a c).1 = a := execCmd_err_eq a c (by simp [h])
  rw [hu]
  exact ⟨rfl, rfl, rfl, rfl⟩

/-- C5 witness: a deposit on an uninitialized account fails with a domain
error and leaves the fresh account exactly as it was. -/
theorem failed_command_leaves_account_unchanged_witness :
    (execCmd (NewAccount "acc-w5") (.deposit 5 .USD)).2 = some .domainError ∧
    (execCmd (NewAccount "acc-w5") (.deposit 5 .USD)).1.balances =
      (NewAccount "acc-w5").balances :=
  have h : (execCmd (NewAccount "acc-w5") (.deposit 5 .USD)).2 = some .domainError := by
    simp [execCmd, HandleDeposit, NewAccount]
  ⟨h, (failed_command_leaves_account_unchanged (NewAccount "acc-w5")
    (.deposit 5 .USD) .domainError h).2.1⟩

/-- handleChange succeeds exactly when ApplyEvent does, and then carries
ApplyEvent's state. -/
theorem handleChange_ok_balances (a : Account) (ev : Event)
    (h : (handleChange a ev).2 = none) :
    (ApplyEvent a ev).2 = none ∧
    (handleChange a ev).1.balances = (ApplyEvent a ev).1.balances := by
  unfold handleChange at *
  rcases hA : ApplyEvent a ev with ⟨a2, oe⟩
  rw [hA] at h
  cases oe with
  | none => simp
  | some e => simp at h

/-- The credit side an event adds to some balance: nonnegative for the
events the command handlers emit. -/
def EventCreditOk : Event → Prop
  | .accountCreated _ l => ∀ p ∈ l, (0:Dec) ≤ p.2
  | .depositMade _ amount _ => 0 ≤ amount
  | .currencyConverted _ _ _ toAmount _ _ => 0 ≤ toAmount
  | .withdrawalMade _ _ _ => True
  | .moneyTransferred _ _ _ _ _ _ _ _ _ => True

/-- ApplyEvent preserves nonnegativity of the balances map: the debit sides
carry their own invariant check, the credit sides are covered by
EventCreditOk. -/
theorem applyEvent_nonneg (a : Account) (ev : Event)
    (hb : NonnegBalances a.balances) (hc : EventCreditOk ev) :
    (ApplyEvent a ev).2 = none → NonnegBalances (ApplyEvent a ev).1.balances := by
  cases ev with
  | accountCreated base l =>
      simp only [ApplyEvent, Event.getBase]
      split
      · simp
      · intro _
        exact nonnegBalances_installBalances hc
  | depositMade base amount currency =>
      simp only [ApplyEvent, Event.getBase]
      split
      · simp
      · intro _
        exact nonnegBalances_setBalance hb currency
          (add_nonneg (getBalance_nonneg hb currency) hc)
  | withdrawalMade base amount currency =>
      simp only [ApplyEvent, Event.getBase]
      split
      · simp
      · split
        · simp
        · next hlt =>
            intro _
            exact nonnegBalances_setBalance hb currency (not_lt.mp hlt)
  | currencyConverted base fromAmount fromCurrency toAmount toCurrency rate =>
      simp only [ApplyEvent, Event.getBase]
      split
      · simp
      · split
        · simp
        · next hlt =>
            intro _
            have h1 : NonnegBalances (setBalance a.balances fromCurrency
                (getBalance a.balances fromCurrency - fromAmount)) :=
              nonnegBalances_setBalance hb fromCurrency (not_lt.mp hlt)
            exact nonnegBalances_setBalance h1 toCurrency
              (add_nonneg (getBalance_nonneg h1 toCurrency) hc)
  | moneyTransferred base tid src tgt debitedAmount debitedCurrency
      creditedAmount creditedCurrency rate =>
      simp only [ApplyEvent, Event.getBase]
      split
      · simp
      · split
        · simp
        · next hlt =>
            intro _
            exact nonnegBalances_setBalance hb debitedCurrency (not_lt.mp hlt)

/-- Each successful command preserves nonnegativity of the balances map. -/
theorem execCmd_nonneg (a : Account) (c : Cmd)
    (hb : NonnegBalances a.balances) :
    (execCmd a c).2 = none → NonnegBalances (execCmd a c).1.balances := by
  cases c with
  | create id l =>
      simp only [execCmd, HandleCreateAccount]
      split
      · simp
      · split
        · simp
        · split
          · simp
          · next hAny =>
              intro hok
              rw [(handleChange_ok_balances _ _ hok).2]
              refine applyEvent_nonneg _ _ hb ?_ (handleChange_ok_balances _ _ hok).1
              intro p hp
              by_contra hneg
              exact hAny (List.any_eq_true.mpr ⟨p, hp, by simpa using not_le.mp hneg⟩)
  | deposit amount currency =>
      simp only [execCmd, HandleDeposit]
      split
      · simp
      · split
        · simp
        · next hpos =>
            intro hok
            rw [(handleChange_ok_balances _ _ hok).2]
            exact applyEvent_nonneg _ _ hb (le_of_lt (not_not.mp hpos))
              (handleChange_ok_balances _ _ hok).1
  | withdraw amount currency =>
      simp only [execCmd, HandleWithdraw]
      (repeat' split) <;>
        first
          | simp
          | (intro hok
             rw [(handleChange_ok_balances _ _ hok).2]
             exact applyEvent_nonneg _ _ hb trivial (handleChange_ok_balances _ _ hok).1)
  | convert fromAmount fromCurrency toCurrency rate =>
      simp only [execCmd, HandleConvertCurrency]
      split
      · simp
      next =>
      split
      · simp
      next hpos =>
      split
      · simp
      next =>
      split
      · simp
      next hrate =>
      split
      · simp
      next =>
      intro hok
      rw [(handleChange_ok_balances _ _ hok).2]
      refine applyEvent_nonneg _ _ hb ?_ (handleChange_ok_balances _ _ hok).1
      exact le_of_lt (mul_pos (not_not.mp hpos) (not_not.mp hrate))
  | transfer target debitAmount debitCurrency creditAmount creditCurrency rate =>
      simp only [execCmd, HandleTransferMoney]
      (repeat' split) <;>
        first
          | simp
          | (intro hok
             rw [(handleChange_ok_balances _ _ hok).2]
             exact applyEvent_nonneg _ _ hb trivial (handleChange_ok_balances _ _ hok).1)

/-- Error-free command sequences preserve nonnegativity of the balances
map. -/
theorem execCmds_nonneg (cmds : List Cmd) :
    ∀ a : Account, NonnegBalances a.balances → (execCmds a cmds).2 = none →
    NonnegBalances (execCmds a cmds).1.balances := by
  induction cmds with
  | nil => intro a hb _; simpa [execCmds] using hb
  | cons c cs ih =>
      intro a hb hok
      simp only [execCmds] at hok ⊢
      rcases hc : execCmd a c with ⟨a2, oe⟩
      rw [hc] at hok
      cases oe with
      | some e => simp at hok
      | none =>
          have h2 : NonnegBalances a2.balances := by
            have := execCmd_nonneg a c hb (by rw [hc])
            rwa [hc] at this
          exact ih a2 h2 hok

/-- C2: for every sequence of commands run through the account's command
handlers (create, deposit, withdraw, convert, transfer) from a fresh
aggregate in which no command returns an error, every value present in the
resulting balances map is nonnegative, for every currency. -/
theorem balances_nonneg_after_error_free_commands (id : String) (cmds : List Cmd)
    (h : (execCmds (NewAccount id) cmds).2 = none) :
    ∀ c v, (execCmds (NewAccount id) cmds).1.balances c = some v → 0 ≤ v :=
  execCmds_nonneg cmds (NewAccount id)
    (by intro c v hv; simp [NewAccount, emptyBalances] at hv) h

/-- C2 witness: create, deposit and a withdrawal that drains most of the
balance all succeed, and the final balances are nonnegative. -/
theorem balances_nonneg_after_error_free_commands_witness :
    (execCmds (NewAccount "acc-1")
      [.create "acc-1" [(.USD, 100)], .deposit 50 .USD, .withdraw 120 .USD]).2 = none ∧
    (∀ c v, (execCmds (NewAccount "acc-1")
      [.create "acc-1" [(.USD, 100)], .deposit 50 .USD, .withdraw 120 .USD]).1.balances
        c = some v → 0 ≤ v) :=
  have hs : (("acc-1" : String) = "") = False := by simp
  have h : (execCmds (NewAccount "acc-1")
      [.create "acc-1" [(.USD, 100)], .deposit 50 .USD, .withdraw 120 .USD]).2 = none := by
    norm_num [execCmds, execCmd, HandleCreateAccount, HandleDeposit, HandleWithdraw,
      handleChange, ApplyEvent, Event.getBase, installBalances, getBalance, setBalance,
      emptyBalances, NewAccount, hs]
  ⟨h, balances_nonneg_after_error_free_commands "acc-1" _ h⟩

/-- C6: on a created account with a sufficient source balance and valid
arguments, HandleConvertCurrency emits one CurrencyConverted event whose
toAmount is exactly fromAmount * exchangeRate (exact decimal arithmetic, no
rounding), debits fromCurrency by fromAmount and credits toCurrency by that
product, bumping the version by one. -/
theorem convertCurrency_exact_product (a : Account) (fromAmount : Dec)
    (fromCurrency toCurrency : Currency) (exchangeRate : Dec)
    (hid : a.id ≠ "") (hver : a.version ≠ 0)
    (hpos : 0 < fromAmount) (hcur : fromCurrency ≠ toCurrency)
    (hrate : 0 < exchangeRate)
    (hbal : fromAmount ≤ getBalance a.balances fromCurrency) :
    (HandleConvertCurrency a fromAmount fromCurrency toCurrency exchangeRate).2 = none ∧
    (HandleConvertCurrency a fromAmount fromCurrency toCurrency exchangeRate).1.changes =
      a.changes ++ [.currencyConverted ⟨a.id, a.version + 1⟩ fromAmount fromCurrency
        (fromAmount * exchangeRate) toCurrency exchangeRate] ∧
    getBalance (HandleConvertCurrency a fromAmount fromCurrency toCurrency
      exchangeRate).1.balances fromCurrency =
      getBalance a.balances fromCurrency - fromAmount ∧
    getBalance (HandleConvertCurrency a fromAmount fromCurrency toCurrency
      exchangeRate).1.balances toCurrency =
      getBalance a.balances toCurrency + fromAmount * exchangeRate ∧
    (HandleConvertCurrency a fromAmount fromCurrency toCurrency exchangeRate).1.version =
      a.version + 1 := by
  have h1 : ¬(a.id = "" ∨ a.version = 0) := by simp [hid, hver]
  have h2 : ¬¬(0 < fromAmount) := not_not_intro hpos
  have h4 : ¬¬(0 < exchangeRate) := not_not_intro hrate
  have h5 : ¬¬(getBalance a.balances fromCurrency ≥ fromAmount) := not_not_intro hbal
  have h6 : ¬((⟨a.id, a.version + 1⟩ : BaseEvent).version ≠ a.version + 1) := by simp
  have h7 : ¬(getBalance a.balances fromCurrency - fromAmount < 0) :=
    not_lt.mpr (sub_nonneg.mpr hbal)
  simp only [HandleConvertCurrency, if_neg h1, if_neg h2, if_neg hcur, if_neg h4,
    if_neg h5, handleChange, ApplyEvent, Event.getBase, if_neg h6, if_neg h7]
  refine ⟨trivial, trivial, ?_, ?_, trivial⟩
  · rw [getBalance_setBalance_ne _ _ hcur, getBalance_setBalance_same]
  · rw [getBalance_setBalance_same, getBalance_setBalance_ne _ _ (Ne.symm hcur)]

/-- Seed account of the conversion scenario: balances USD 1200.50 and
EUR 500 at version 2. -/
def acc6 : Account :=
  { id := "acc-6",
    balances := setBalance (setBalance emptyBalances .USD 1200.50) .EUR 500,
    version := 2, changes := [] }

/-- C6 witness: converting 100 USD to EUR at rate 0.92 from
{USD 1200.50, EUR 500} at version 2 succeeds and yields 1100.50 USD and
592 EUR at version 3, the event recording toAmount exactly 92. -/
theorem convertCurrency_exact_product_witness :
    (HandleConvertCurrency acc6 100 .USD .EUR 0.92).2 = none ∧
    getBalance (HandleConvertCurrency acc6 100 .USD .EUR 0.92).1.balances .USD = 1100.50 ∧
    getBalance (HandleConvertCurrency acc6 100 .USD .EUR 0.92).1.balances .EUR = 592 ∧
    (HandleConvertCurrency acc6 100 .USD .EUR 0.92).1.version = 3 ∧
    (HandleConvertCurrency acc6 100 .USD .EUR 0.92).1.changes =
      [.currencyConverted ⟨"acc-6", 3⟩ 100 .USD 92 .EUR 0.92] :=
  have h := convertCurrency_exact_product acc6 100 .USD .EUR 0.92
    (by decide) (by decide) (by norm_num) (by decide) (by norm_num)
    (by norm_num [acc6, getBalance, setBalance, emptyBalances])
  ⟨h.1,
   by rw [h.2.2.1]; norm_num [acc6, getBalance, setBalance, emptyBalances],
   by rw [h.2.2.2.1]; norm_num [acc6, getBalance, setBalance, emptyBalances],
   by rw [h.2.2.2.2]; norm_num [acc6],
   by rw [h.2.1]; norm_num [acc6]⟩

/-- C10: ApplyEvent performs no sign or validity check on the credit sides:
an in-sequence DepositMade event of any amount (zero or negative included)
succeeds and adds the amount to the balance, and an in-sequence
AccountCreated event installs its initial balance entries verbatim,
negative amounts included, without any invariant check. -/
theorem applyEvent_credit_side_unchecked (a : Account) (base : BaseEvent)
    (amount : Dec) (currency : Currency) (initial : List (Currency × Dec))
    (h : base.version = a.version + 1) :
    (ApplyEvent a (.depositMade base amount currency)).2 = none ∧
    (ApplyEvent a (.depositMade base amount currency)).1.balances =
      setBalance a.balances currency (getBalance a.balances currency + amount) ∧
    (ApplyEvent a (.accountCreated base initial)).2 = none ∧
    (ApplyEvent a (.accountCreated base initial)).1.balances = installBalances initial := by
  simp [ApplyEvent, Event.getBase, h]

/-- Concrete account used to exercise the unchecked deposit credit. -/
def acc10 : Account :=
  { id := "acc-10", balances := setBalance emptyBalances .USD 5,
    version := 1, changes := [] }

/-- C10 witness: applying a DepositMade event with amount -7 to a balance of
5 USD succeeds and drives the balance to -2. -/
theorem applyEvent_credit_side_unchecked_witness :
    (ApplyEvent acc10 (.depositMade ⟨"acc-10", 2⟩ (-7) .USD)).2 = none ∧
    getBalance (ApplyEvent acc10 (.depositMade ⟨"acc-10", 2⟩ (-7) .USD)).1.balances .USD
      = -2 :=
  have h := applyEvent_credit_side_unchecked acc10 ⟨"acc-10", 2⟩ (-7) .USD [] (by decide)
  ⟨h.1, by rw [h.2.1]; norm_num [acc10, getBalance, setBalance, emptyBalances]⟩

/-- Target-side aggregate of the transfer scenario in
TestAccount_ApplyEvents (domain/account_test.go): the account
"acc-other-target" holding EUR 50 at version 1. -/
def c1target : Account :=
  { id := "acc-other-target", balances := setBalance emptyBalances .EUR 50,
    version := 1, changes := [] }

/-- Credit-side MoneyTransferred event from that test: source "acc-apply"
debited 30 USD, target "acc-other-target" to be credited 25 EUR. -/
def c1event : Event :=
  .moneyTransferred ⟨"acc-other-target", 2⟩ "tf-apply-123" "acc-apply" "acc-other-target"
    30 .USD 25 .EUR 0.83333333

/-- C1: the MoneyTransferred branch of ApplyEvent in domain/account.go
(lines 253-261) never compares sourceAccountId or targetAccountId with the
aggregate's id and never applies the credit: it unconditionally debits
debitedCurrency by debitedAmount.  On the receive-side event above — the
exact event TestAccount_ApplyEvents applies to the target account expecting
success with EUR 75 — the code instead attempts the debit 0 - 30 USD and
fails with the invariant violation, leaving the account unchanged. -/
theorem transferApply_credit_side_missing :
    (ApplyEvent c1target c1event).2 = some .invariantViolation ∧
    (ApplyEvent c1target c1event).1 = c1target :=
  have h : (ApplyEvent c1target c1event).2 = some .invariantViolation := by
    norm_num [ApplyEvent, Event.getBase, c1target, c1event, getBalance,
      setBalance, emptyBalances]
  ⟨h, applyEvent_err_eq _ _ (by rw [h]; simp)⟩

/-- C7: decoding the snapshot encoded from any aggregate restores the same
id, version and balances, with an empty pending-changes buffer. -/
theorem snapshot_roundtrip_identity (a : Account) :
    (ApplySnapshot (CreateSnapshot a)).id = a.id ∧
    (ApplySnapshot (CreateSnapshot a)).version = a.version ∧
    (ApplySnapshot (CreateSnapshot a)).balances = a.balances ∧
    (ApplySnapshot (CreateSnapshot a)).changes = [] := by
  simp [ApplySnapshot, CreateSnapshot]

/-- Three-event stream used by the C8 counterexample. -/
def histC8 : List Event :=
  [.depositMade ⟨"h", 1⟩ 1 .USD, .depositMade ⟨"h", 2⟩ 2 .USD,
   .depositMade ⟨"h", 3⟩ 3 .USD]

/-- C8, counterexample: skip and limit are Go int64 values, and
`end := start + query.Limit` (service.go line 308) wraps.  On the non-empty
three-event stream with skip 1 and limit 2^63 - 1, the sum wraps to -2^63,
the `end > totalEvents` fix-up does not fire, and `history[1:-2^63]` panics
with a slice-bounds error — no slice is returned, refuting the claim's
"every limit", which here demands the tail [e2, e3]. -/
theorem transactionHistory_wraps_at_int64 :
    GetTransactionHistory histC8 1 (2 ^ 63 - 1) = none ∧ histC8 ≠ [] := by
  constructor
  · norm_num [GetTransactionHistory, wrap64, histC8]
  · simp [histC8]

/-- C8, amended: on a non-empty stream, for every skip ≥ 0 and every limit
whose sum with skip stays below 2^63 (so the int64 addition
`start + query.Limit` does not overflow), the history query returns exactly
the contiguous slice starting at skip, bounded by limit when limit is
positive and unbounded otherwise; a skip at or past the end gives the empty
list.  When limit > 0 and skip + limit reaches 2^63 the computed end wraps
negative and the slice expression panics instead. -/
theorem transactionHistory_slice (history : List Event) (skip limit : Int)
    (hskip : 0 ≤ skip) (hof : skip + limit < 2 ^ 63) (hne : history ≠ []) :
    GetTransactionHistory history skip limit =
      some ((history.drop skip.toNat).take
        (if limit ≤ 0 then history.length else limit.toNat)) := by
  simp only [GetTransactionHistory]
  rw [if_neg (not_lt.mpr hskip)]
  by_cases hstart : skip ≥ (history.length : Int)
  · rw [if_pos hstart, List.drop_eq_nil_of_le (by omega), List.take_nil]
  · rw [if_neg hstart]
    by_cases hl0 : limit ≤ 0
    · rw [if_pos (Or.inl hl0), if_pos ⟨hskip, by omega, le_refl _⟩]
      have h1 : ((history.length : Int)).toNat = history.length := by omega
      rw [h1, List.take_length, if_pos hl0]
      exact congrArg some
        (List.take_of_length_le (by rw [List.length_drop]; exact Nat.sub_le _ _)).symm
    · have hwrap : wrap64 (skip + limit) = skip + limit := by
        unfold wrap64
        omega
      rw [hwrap]
      by_cases hbig : skip + limit > (history.length : Int)
      · rw [if_pos (Or.inr hbig), if_pos ⟨hskip, by omega, le_refl _⟩]
        have h1 : ((history.length : Int)).toNat = history.length := by omega
        rw [h1, List.take_length, if_neg hl0]
        exact congrArg some
          (List.take_of_length_le (by rw [List.length_drop]; omega)).symm
      · have hcond : ¬(limit ≤ 0 ∨ skip + limit > (history.length : Int)) := by omega
        rw [if_neg hcond, if_pos ⟨hskip, by omega, by omega⟩, List.drop_take, if_neg hl0]
        refine congrArg some ?_
        congr 1
        omega

/-- C8 witness: skip 1, limit 1 on a three-event stream returns exactly the
middle event. -/
theorem transactionHistory_slice_witness :
    GetTransactionHistory
        [.depositMade ⟨"h", 1⟩ 1 .USD, .depositMade ⟨"h", 2⟩ 2 .USD,
         .depositMade ⟨"h", 3⟩ 3 .USD] 1 1 =
      some [.depositMade ⟨"h", 2⟩ 2 .USD] := by
  rw [transactionHistory_slice _ 1 1 (by omega) (by omega) (by simp)]
  rfl

/-- Spec-side batch validity used by C3: the batch versions are exactly
expectedVersion + 1, expectedVersion + 2, …, in order with no gaps. -/
def BatchSequenced (expectedVersion : Int) (batch : List Event) : Prop :=
  batch.map (fun e => e.getBase.version) =
    (List.range batch.length).map (fun i : ℕ => expectedVersion + 1 + (i : Int))

/-- The store's validation loop accepts a batch exactly when it is gapless
from expectedVersion + 1 and every event targets the stream's aggregate. -/
theorem checkBatch_eq_none_iff (aggregateID : String) (batch : List Event) :
    ∀ v : Int, checkBatch aggregateID v batch = none ↔
      (BatchSequenced v batch ∧ ∀ e ∈ batch, e.getBase.aggregateId = aggregateID) := by
  induction batch with
  | nil => intro v; simp [checkBatch, BatchSequenced]
  | cons e rest ih =>
      intro v
      have hshift : (List.range rest.length).map
            (fun i : ℕ => v + 1 + ((Nat.succ i : ℕ) : Int)) =
          (List.range rest.length).map (fun i : ℕ => v + 1 + 1 + (i : Int)) :=
        List.map_congr_left (by
          intro i _
          push_cast
          ring)
      have hrhs : BatchSequenced v (e :: rest) ↔
          (e.getBase.version = v + 1 ∧ BatchSequenced (v + 1) rest) := by
        unfold BatchSequenced
        simp only [List.map_cons, List.length_cons, List.range_succ_eq_map,
          List.map_map, Function.comp_def, List.cons.injEq, Nat.cast_zero,
          add_zero, hshift]
      rw [checkBatch]
      constructor
      · intro h
        split at h
        · exact absurd h (by simp)
        · split at h
          · exact absurd h (by simp)
          · next hv hid =>
              rcases (ih (v + 1)).mp h with ⟨hseq, hids⟩
              refine ⟨hrhs.mpr ⟨not_not.mp hv, hseq⟩, ?_⟩
              intro x hx
              rcases List.mem_cons.mp hx with hx | hx
              · rw [hx]; exact not_not.mp hid
              · exact hids x hx
      · rintro ⟨hseq, hids⟩
        rcases hrhs.mp hseq with ⟨hv, hrest⟩
        rw [if_neg (not_not_intro hv),
          if_neg (not_not_intro (hids e (List.mem_cons_self e rest)))]
        exact (ih (v + 1)).mpr ⟨hrest, fun x hx => hids x (List.mem_cons_of_mem e hx)⟩

/-- SaveEvents on an empty batch: early nil return before any check. -/
theorem saveEvents_empty_eq (s : EventStore) (aggregateID : String)
    (expectedVersion : Int) :
    SaveEvents s aggregateID expectedVersion [] = (s, none) := by
  unfold SaveEvents
  rw [if_pos (by simp)]

/-- SaveEvents on a non-empty batch with a stale expectedVersion: the
optimistic-lock rejection, store untouched. -/
theorem saveEvents_lock_eq (s : EventStore) (aggregateID : String)
    (expectedVersion : Int) (batch : List Event) (hne : batch ≠ [])
    (hver : currentVersion s aggregateID ≠ expectedVersion) :
    SaveEvents s aggregateID expectedVersion batch = (s, some .optimisticLock) := by
  unfold SaveEvents
  rw [if_neg (by simpa using hne), if_pos hver]

/-- SaveEvents on a matching version and a batch its validation loop
accepts: all events are appended to the stream. -/
theorem saveEvents_ok_eq (s : EventStore) (aggregateID : String)
    (expectedVersion : Int) (batch : List Event) (hne : batch ≠ [])
    (hver : currentVersion s aggregateID = expectedVersion)
    (hcb : checkBatch aggregateID expectedVersion batch = none) :
    SaveEvents s aggregateID expectedVersion batch =
      ({ streams := fun x => if x = aggregateID then
          some ((s.streams aggregateID).getD [] ++ batch)
          else s.streams x }, none) := by
  unfold SaveEvents
  rw [if_neg (by simpa using hne), if_neg (not_not_intro hver), hcb]

/-- C3: SaveEvents treats an empty batch as a successful no-op; a non-empty
batch against a stored version different from expectedVersion fails with
OptimisticLock leaving the store unchanged; and a non-empty batch at the
right stored version that is not gapless from expectedVersion + 1 or names
a different aggregate is rejected wholesale — the stream is completely
unchanged and a non-lock error is returned. -/
theorem saveEvents_validation_wholesale_reject (s : EventStore)
    (aggregateID : String) (expectedVersion : Int) (batch : List Event) :
    (batch = [] → SaveEvents s aggregateID expectedVersion batch = (s, none)) ∧
    (batch ≠ [] → currentVersion s aggregateID ≠ expectedVersion →
      SaveEvents s aggregateID expectedVersion batch = (s, some .optimisticLock)) ∧
    (batch ≠ [] → currentVersion s aggregateID = expectedVersion →
      ¬(BatchSequenced expectedVersion batch ∧
          ∀ e ∈ batch, e.getBase.aggregateId = aggregateID) →
      (SaveEvents s aggregateID expectedVersion batch).1 = s ∧
      (SaveEvents s aggregateID expectedVersion batch).2 ≠ none) := by
  refine ⟨?_, ?_, ?_⟩
  · intro h
    rw [h]
    exact saveEvents_empty_eq s aggregateID expectedVersion
  · exact saveEvents_lock_eq s aggregateID expectedVersion batch
  · intro hne hver hbad
    unfold SaveEvents
    rw [if_neg (by simpa using hne), if_neg (not_not_intro hver)]
    cases hc : checkBatch aggregateID expectedVersion batch with
    | none => exact absurd ((checkBatch_eq_none_iff aggregateID batch expectedVersion).mp hc) hbad
    | some err => simp

/-- Events used by the store witnesses. -/
def e3a : Event := .depositMade ⟨"acc-3", 6⟩ 1 .USD

/-- C3 witness: a non-empty batch against an empty stream with
expectedVersion 5 (stored version 0) is rejected with OptimisticLock and the
store is untouched. -/
theorem saveEvents_validation_wholesale_reject_witness :
    SaveEvents NewInMemoryEventStore "acc-3" 5 [e3a] =
      (NewInMemoryEventStore, some .optimisticLock) :=
  (saveEvents_validation_wholesale_reject NewInMemoryEventStore "acc-3" 5 [e3a]).2.1
    (by simp) (by decide)

/-- C9: two appends racing on the same aggregate at the same
expectedVersion.  The store's mutex serializes them, so the race is modelled
by running them in sequence (the statement is symmetric in the two batches,
covering both orders): the first single-event append succeeds, the second
fails with OptimisticLock, and the stored stream afterwards is the prior
stream plus exactly the winning event, at version expectedVersion + 1. -/
theorem optimistic_lock_race (s : EventStore) (aggregateID : String)
    (expectedVersion : Int) (e1 e2 : Event)
    (hcur : currentVersion s aggregateID = expectedVersion)
    (h1v : e1.getBase.version = expectedVersion + 1)
    (h1id : e1.getBase.aggregateId = aggregateID)
    (h2v : e2.getBase.version = expectedVersion + 1)
    (h2id : e2.getBase.aggregateId = aggregateID) :
    (SaveEvents s aggregateID expectedVersion [e1]).2 = none ∧
    (SaveEvents (SaveEvents s aggregateID expectedVersion [e1]).1 aggregateID
      expectedVersion [e2]).2 = some .optimisticLock ∧
    (SaveEvents (SaveEvents s aggregateID expectedVersion [e1]).1 aggregateID
      expectedVersion [e2]).1.streams aggregateID =
      some ((s.streams aggregateID).getD [] ++ [e1]) ∧
    currentVersion (SaveEvents (SaveEvents s aggregateID expectedVersion [e1]).1
      aggregateID expectedVersion [e2]).1 aggregateID = expectedVersion + 1 := by
  have hcb : checkBatch aggregateID expectedVersion [e1] = none := by
    rw [checkBatch, if_neg (not_not_intro h1v), if_neg (not_not_intro h1id)]
    rfl
  have hsave1 := saveEvents_ok_eq s aggregateID expectedVersion [e1] (by simp) hcur hcb
  have hcur1 : currentVersion (SaveEvents s aggregateID expectedVersion [e1]).1
      aggregateID = expectedVersion + 1 := by
    rw [hsave1]
    unfold currentVersion
    simp [List.getLast?_concat, h1v]
  have hsave2 := saveEvents_lock_eq (SaveEvents s aggregateID expectedVersion [e1]).1
    aggregateID expectedVersion [e2] (by simp) (by rw [hcur1]; omega)
  refine ⟨by rw [hsave1], by rw [hsave2], ?_, by rw [hsave2]; exact hcur1⟩
  rw [hsave2, hsave1]
  simp

/-- Events used by the race witness. -/
def e9a : Event := .depositMade ⟨"acc-9", 1⟩ 10 .USD

/-- Second event of the race witness. -/
def e9b : Event := .depositMade ⟨"acc-9", 1⟩ 20 .USD

/-- C9 witness: two version-1 appends from stored version 0; the first wins,
the second gets OptimisticLock, and the stored version ends at 1. -/
theorem optimistic_lock_race_witness :
    (SaveEvents NewInMemoryEventStore "acc-9" 0 [e9a]).2 = none ∧
    (SaveEvents (SaveEvents NewInMemoryEventStore "acc-9" 0 [e9a]).1 "acc-9" 0
      [e9b]).2 = some .optimisticLock ∧
    currentVersion (SaveEvents (SaveEvents NewInMemoryEventStore "acc-9" 0 [e9a]).1
      "acc-9" 0 [e9b]).1 "acc-9" = 1 :=
  have h := optimistic_lock_race NewInMemoryEventStore "acc-9" 0 e9a e9b
    (by decide) (by decide) (by decide) (by decide) (by decide)
  ⟨h.1, h.2.1, by simpa using h.2.2.2⟩

end Ledger
